import Mathlib

/-!
Shallow embedding of the mini_numpy library
(`src/mini_numpy/_matrices.py` and `src/mini_numpy/_vectors.py`).

Matrices carry integer entries.  Vectors carry rational entries: Python's
`/` is exact on the rationals we quantify over, and Python raises
`ZeroDivisionError` on a zero divisor (for ints and floats alike), which we
model explicitly.  Python exceptions are modelled by `PyError`; operations
that can raise return `Except PyError _`, and the in-place row replacement
`__setitem__` returns the mutated object together with the raised error,
because the mutation survives a failing validation.
-/

namespace MiniNumpy

/-- Model of the Python exceptions raised by the library: `ValueError`
(with its message), `IndexError`, `TypeError`, and `ZeroDivisionError`. -/
inductive PyError where
  | valueError : String → PyError
  | indexError : PyError
  | typeError : String → PyError
  | zeroDivisionError : PyError

deriving instance DecidableEq for PyError

/-- Model of a `Matrix` object: the `coordinates` list of rows together with
the `h` and `w` attributes stored by `__init__`.  These attributes are never
recomputed by `__setitem__`, while the `shape` property is recomputed from
`coordinates` on each access. -/
structure Matrix where
  coordinates : List (List Int)
  h : Nat
  w : Nat

deriving instance DecidableEq for Matrix

/-- Model of `Matrix.__check_matrix__`: `ValueError` when some row's length
differs from the stored width `self.w`.  (The `isinstance` guard in the
source can never fire on a `Matrix` receiver and is omitted.) -/
def checkMatrix (m : Matrix) : Option PyError :=
  if m.coordinates.any (fun row => row.length != m.w) then
    some (.valueError "All rows must be the same length")
  else none

/-- Model of `Matrix.__init__`: store the rows, set `h` to the number of rows
and `w` to the first row's length (`IndexError` on an empty outer list), then
run `__check_matrix__`. -/
def mkMatrix (rows : List (List Int)) : Except PyError Matrix :=
  match rows with
  | [] => .error .indexError
  | r :: _ =>
    let m : Matrix := ⟨rows, rows.length, r.length⟩
    match checkMatrix m with
    | some e => .error e
    | none => .ok m

/-- Model of the `shape` property, recomputed from `coordinates` on each
access.  On a zero-row matrix Python would raise `IndexError`, but no
reachable `Matrix` object has zero rows: the constructor rejects them and row
replacement keeps the row count, so the `headD` default is never observed. -/
def Matrix.shape (m : Matrix) : Nat × Nat :=
  (m.coordinates.length, (m.coordinates.headD []).length)

/-- Matrices reachable through the Python API: at least one row, stored `h`
and `w` agreeing with the data, and every row of length `w`. -/
def Matrix.Valid (m : Matrix) : Prop :=
  m.coordinates ≠ [] ∧ m.h = m.coordinates.length ∧
    m.w = (m.coordinates.headD []).length ∧
    ∀ row ∈ m.coordinates, row.length = m.w

instance (m : Matrix) : Decidable m.Valid := by
  unfold Matrix.Valid
  exact inferInstance

/-- Python tuple repr of a shape, e.g. the string `(2, 3)`. -/
def shapeStr (p : Nat × Nat) : String :=
  "(" ++ toString p.1 ++ ", " ++ toString p.2 ++ ")"

/-- Model of `Matrix.__repr__`.  Lean's rendering of `List (List Int)`
coincides with Python's list repr on integer entries. -/
def Matrix.reprStr (m : Matrix) : String :=
  "Matrix(" ++ toString m.coordinates ++ ")"

/-- The f-string raised by `__add__` and `__sub__` on a shape mismatch. -/
def sameShapeMsg (self other : Matrix) : String :=
  "Matrices must be the same shape. Shape of " ++ self.reprStr ++ " is " ++
    shapeStr self.shape ++ " and shape of " ++ other.reprStr ++ " is " ++
    shapeStr other.shape

/-- The f-string raised by `__mul__` on incompatible matrix shapes. -/
def mulShapeMsg (self other : Matrix) : String :=
  "Matrices must be compatible for matrix multiplication. Shape of " ++
    self.reprStr ++ " is " ++ shapeStr self.shape ++ " and shape of " ++
    other.reprStr ++ " is " ++ shapeStr other.shape

/-- Model of `Matrix.__neg__`: negate every entry and rebuild through the
constructor. -/
def Matrix.neg (m : Matrix) : Except PyError Matrix :=
  mkMatrix (m.coordinates.map (fun a => a.map (fun x => -x)))

/-- Model of `Matrix.__add__`: on equal (recomputed) shapes, the rows of
`other` and `self` are zipped and added entrywise (`x` drawn from `other`,
`y` from `self`), and the sums rebuilt through the constructor; otherwise
`ValueError` carrying both shapes in its message. -/
def Matrix.add (self other : Matrix) : Except PyError Matrix :=
  if other.shape = self.shape then
    mkMatrix (List.zipWith (fun a b => List.zipWith (fun x y => x + y) a b)
      other.coordinates self.coordinates)
  else .error (.valueError (sameShapeMsg self other))

/-- Model of `Matrix.__sub__`: on equal shapes, `self + (-other)`; otherwise
the same `ValueError` as `__add__`. -/
def Matrix.sub (self other : Matrix) : Except PyError Matrix :=
  if other.shape = self.shape then
    match Matrix.neg other with
    | .error e => .error e
    | .ok n => Matrix.add self n
  else .error (.valueError (sameShapeMsg self other))

/-- Semantics of Python `zip(*rows)`: as many tuples as the shortest row,
tuple `j` collecting entry `j` of every row; empty when there are no rows. -/
def pyZipStar (rows : List (List Int)) : List (List Int) :=
  match rows with
  | [] => []
  | r :: rs =>
    (List.range (rs.foldl (fun acc row => min acc row.length) r.length)).map
      (fun j => (r :: rs).map (fun row => row.getD j 0))

/-- Model of `Matrix.transpose`: `zip(*self.coordinates)` rebuilt through the
constructor. -/
def Matrix.transpose (m : Matrix) : Except PyError Matrix :=
  mkMatrix (pyZipStar m.coordinates)

/-- Model of `Matrix.get_col`: entry `col` of every row, in row order;
`IndexError` when some row is too short (Python raises at the first such row
and discards the partial list, so only the error is observable). -/
def Matrix.get_col (m : Matrix) (col : Nat) : Except PyError (List Int) :=
  if m.coordinates.all (fun row => decide (col < row.length)) then
    .ok (m.coordinates.map (fun row => row.getD col 0))
  else .error .indexError

/-- Model of the statement `result[i][j] = v` on a list-of-lists buffer:
`IndexError` when `i` or `j` is out of range, otherwise the updated buffer. -/
def setEntry (res : List (List Int)) (i j : Nat) (v : Int) :
    Except PyError (List (List Int)) :=
  if i < res.length then
    let row := res.getD i []
    if j < row.length then .ok (res.set i (row.set j v))
    else .error .indexError
  else .error .indexError

/-- Model of `sum(a * b for a, b in zip(row_a, col))`. -/
def dotZip (xs ys : List Int) : Int :=
  (List.zipWith (fun a b => a * b) xs ys).sum

/-- Model of the inner loop of matrix `__mul__`: for each `j` in order, fetch
column `j` of `other` and store the dot product with `row_a` at
`result[i][j]`, stopping at the first raised exception. -/
def innerLoop (other : Matrix) (row_a : List Int) (i : Nat) :
    List Nat → List (List Int) → Except PyError (List (List Int))
  | [], res => .ok res
  | j :: js, res =>
    match other.get_col j with
    | .error e => .error e
    | .ok col =>
      match setEntry res i j (dotZip row_a col) with
      | .error e => .error e
      | .ok res2 => innerLoop other row_a i js res2

/-- Model of the outer loop of matrix `__mul__`, over
`enumerate(self.coordinates)`. -/
def outerLoop (other : Matrix) :
    List (Nat × List Int) → List (List Int) → Except PyError (List (List Int))
  | [], res => .ok res
  | p :: ps, res =>
    match innerLoop other p.2 p.1 (List.range other.w) res with
    | .error e => .error e
    | .ok res2 => outerLoop other ps res2

/-- Model of the `Matrix` branch of `Matrix.__mul__`: with
`self.w == other.h`, allocate a buffer of `other.w` rows of `self.h` zeros
(note: transposed with respect to the indices later written, and each
comprehension row is an independent list), run the two loops, and rebuild the
buffer through the constructor; on incompatible shapes, `ValueError` carrying
both shapes. -/
def Matrix.mulMatrix (self other : Matrix) : Except PyError Matrix :=
  if self.w = other.h then
    match outerLoop other self.coordinates.enum
        (List.replicate other.w (List.replicate self.h (0 : Int))) with
    | .error e => .error e
    | .ok res => mkMatrix res
  else .error (.valueError (mulShapeMsg self other))

/-- Model of `Matrix.__setitem__`: assign the new row (`IndexError` when the
index is out of range), then run `__check_matrix__`.  The pair returned is
the object after the call together with the exception, if any; a failing
validation does not undo the assignment, and the stored `h` and `w`
attributes are not updated. -/
def Matrix.setitem (m : Matrix) (idx : Nat) (value : List Int) :
    Matrix × Option PyError :=
  if idx < m.coordinates.length then
    let m2 : Matrix := { m with coordinates := m.coordinates.set idx value }
    (m2, checkMatrix m2)
  else (m, some .indexError)

/-- Model of a `Vector` object: the stored tuple of coordinates, taken as
rationals. -/
structure Vector where
  coordinates : List ℚ

deriving instance DecidableEq for Vector

/-- Model of `Vector.__repr__`.  Rational entries render differently from
Python floats, but no theorem below depends on this text. -/
def Vector.reprStr (v : Vector) : String :=
  "Vector(" ++ String.intercalate ", " (v.coordinates.map toString) ++ ")"

/-- The f-string raised by `Vector.__mul__` and `Vector.__truediv__` on a
length mismatch. -/
def cannotMulMsg (self other : Vector) : String :=
  "Cannot multiply " ++ self.reprStr ++ " and " ++ other.reprStr

/-- Model of `Vector.__add__`: entrywise sums over
`zip(other.coordinates, self.coordinates)` (`a` drawn from `other`, `b` from
`self`), silently truncating to the shorter operand; never raises. -/
def Vector.add (self other : Vector) : Vector :=
  ⟨List.zipWith (fun a b => a + b) other.coordinates self.coordinates⟩

/-- Model of `Vector.__sub__`: entrywise differences over
`zip(self.coordinates, other.coordinates)`, silently truncating to the
shorter operand; never raises. -/
def Vector.sub (self other : Vector) : Vector :=
  ⟨List.zipWith (fun a b => a - b) self.coordinates other.coordinates⟩

/-- Model of Python division `a / b`: `ZeroDivisionError` on `b = 0`,
otherwise the exact quotient. -/
def pyDiv (a b : ℚ) : Except PyError ℚ :=
  if b = 0 then .error .zeroDivisionError else .ok (a / b)

/-- Model of `sum(a / b for a, b in zip(xs, ys))`: a left fold starting from
`0` that raises at the first zero divisor. -/
def divSumAux (acc : ℚ) : List (ℚ × ℚ) → Except PyError ℚ
  | [] => .ok acc
  | p :: ps =>
    match pyDiv p.1 p.2 with
    | .error e => .error e
    | .ok q => divSumAux (acc + q) ps

/-- Operand of `Vector.__truediv__`: a `Vector` or a numeric scalar
(the `isinstance` dispatch of the source). -/
inductive VecOperand where
  | vec : Vector → VecOperand
  | scalar : ℚ → VecOperand

deriving instance DecidableEq for VecOperand

/-- Result of `Vector.__truediv__`: a scalar for a `Vector` operand, a new
`Vector` for a scalar operand. -/
inductive VecOrScalar where
  | vec : Vector → VecOrScalar
  | scalar : ℚ → VecOrScalar

deriving instance DecidableEq for VecOrScalar

/-- Model of `Vector.__truediv__`: on a `Vector` operand of equal length, the
scalar sum of the pairwise quotients `self[i] / other[i]` (numerators from
`self`); `ValueError` on a length mismatch.  On a scalar operand, the
entrywise quotients as a new vector (raising at the first division by
zero). -/
def Vector.truediv (self : Vector) (other : VecOperand) :
    Except PyError VecOrScalar :=
  match other with
  | .vec o =>
    if o.coordinates.length = self.coordinates.length then
      match divSumAux 0 (self.coordinates.zip o.coordinates) with
      | .error e => .error e
      | .ok s => .ok (.scalar s)
    else .error (.valueError (cannotMulMsg self o))
  | .scalar c =>
    match self.coordinates.mapM (fun a => pyDiv a c) with
    | .error e => .error e
    | .ok res => .ok (.vec ⟨res⟩)

/-- Substring containment, stated on the character data. -/
def strContains (s t : String) : Prop :=
  ∃ u v, s.data = u ++ t.data ++ v

/-! General list lemmas used below. -/

theorem getD_mem_of_lt {α : Type} (l : List α) (i : Nat) (d : α) (h : i < l.length) :
    l.getD i d ∈ l := by
  rw [List.getD_eq_getElem l d h]
  exact List.getElem_mem h

theorem getD_map_of_lt {α β : Type} (f : α → β) (d : β) (d0 : α) (l : List α) (i : Nat)
    (h : i < l.length) : (l.map f).getD i d = f (l.getD i d0) := by
  rw [List.getD_eq_getElem _ _ (by simpa using h), List.getElem_map,
    List.getD_eq_getElem _ _ h]

theorem getD_zipWith_of_lt {α β γ : Type} (f : α → β → γ) (d : γ) (d1 : α) (d2 : β)
    (l1 : List α) (l2 : List β) (i : Nat) (h1 : i < l1.length) (h2 : i < l2.length) :
    (List.zipWith f l1 l2).getD i d = f (l1.getD i d1) (l2.getD i d2) := by
  rw [List.getD_eq_getElem _ _ (by rw [List.length_zipWith]; omega), List.getElem_zipWith,
    List.getD_eq_getElem _ _ h1, List.getD_eq_getElem _ _ h2]

theorem range_map_getD {α : Type} (d : α) : ∀ l : List α,
    (List.range l.length).map (fun j => l.getD j d) = l := by
  intro l
  induction l with
  | nil => rfl
  | cons a l ih =>
    rw [List.length_cons, List.range_succ_eq_map, List.map_cons, List.map_map]
    have h2 : ((fun j => (a :: l).getD j d) ∘ Nat.succ) = fun j => l.getD j d := rfl
    rw [h2, ih]
    rfl

theorem getD_set_self_of_lt {α : Type} (l : List α) (i : Nat) (a : α) (d : α)
    (h : i < l.length) : (l.set i a).getD i d = a := by
  rw [List.getD_eq_getElem _ _ (by simpa using h)]
  exact List.getElem_set_self _

theorem mem_set_self_of_lt {α : Type} (a : α) : ∀ (l : List α) (i : Nat),
    i < l.length → a ∈ l.set i a := by
  intro l
  induction l with
  | nil => intro i h; simp at h
  | cons b l ih =>
    intro i h
    cases i with
    | zero => simp
    | succ i =>
      simp only [List.set_cons_succ, List.mem_cons]
      exact Or.inr (ih i (by simpa using h))

theorem foldl_min_const (w : Nat) : ∀ rs : List (List Int),
    (∀ row ∈ rs, row.length = w) →
    rs.foldl (fun acc row => min acc row.length) w = w := by
  intro rs
  induction rs with
  | nil => intro _; rfl
  | cons r rs ih =>
    intro h
    have hr : r.length = w := h r (by simp)
    simp only [List.foldl_cons, hr, min_self]
    exact ih (fun row hrow => h row (by simp [hrow]))

theorem map_zip_eq_zipWith {α β γ : Type} (f : α → β → γ) : ∀ (xs : List α) (ys : List β),
    (xs.zip ys).map (fun p => f p.1 p.2) = List.zipWith f xs ys := by
  intro xs
  induction xs with
  | nil => intro ys; rfl
  | cons x xs ih =>
    intro ys
    cases ys with
    | nil => rfl
    | cons y ys => simp [ih]

/-! Facts about the constructor. -/

theorem mkMatrix_ok (rows : List (List Int)) (w0 : Nat) (hne : rows ≠ [])
    (hall : ∀ r ∈ rows, r.length = w0) :
    mkMatrix rows = .ok ⟨rows, rows.length, w0⟩ := by
  cases rows with
  | nil => exact absurd rfl hne
  | cons r rs =>
    have hr : r.length = w0 := hall r (by simp)
    have hcheck : checkMatrix ⟨r :: rs, (r :: rs).length, r.length⟩ = none := by
      unfold checkMatrix
      rw [if_neg]
      intro hany
      rw [List.any_eq_true] at hany
      obtain ⟨row, hrow, hbne⟩ := hany
      exact (bne_iff_ne.mp hbne) ((hall row hrow).trans hr.symm)
    rw [← hr]
    simp only [mkMatrix, hcheck]

theorem valid_of_rect (rows : List (List Int)) (w0 : Nat) (hne : rows ≠ [])
    (hall : ∀ r ∈ rows, r.length = w0) :
    (Matrix.mk rows rows.length w0).Valid := by
  obtain ⟨r, rs, rfl⟩ := List.exists_cons_of_ne_nil hne
  exact ⟨by simp, rfl, by simpa using (hall r (by simp)).symm, hall⟩

theorem shape_of_rect (rows : List (List Int)) (h0 w0 : Nat) (hne : rows ≠ [])
    (hall : ∀ r ∈ rows, r.length = w0) :
    (Matrix.mk rows h0 w0).shape = (rows.length, w0) := by
  obtain ⟨r, rs, rfl⟩ := List.exists_cons_of_ne_nil hne
  simp only [Matrix.shape, List.headD_cons]
  rw [hall r (by simp)]

/-! Facts about the division fold. -/

theorem truediv_vec_def (self o : Vector) :
    self.truediv (.vec o) =
      if o.coordinates.length = self.coordinates.length then
        match divSumAux 0 (self.coordinates.zip o.coordinates) with
        | .error e => .error e
        | .ok s => .ok (.scalar s)
      else .error (.valueError (cannotMulMsg self o)) := rfl

theorem divSumAux_ok : ∀ (ps : List (ℚ × ℚ)) (acc : ℚ), (∀ p ∈ ps, p.2 ≠ 0) →
    divSumAux acc ps = .ok (acc + (ps.map (fun p => p.1 / p.2)).sum) := by
  intro ps
  induction ps with
  | nil => intro acc _; simp [divSumAux]
  | cons p ps ih =>
    intro acc h
    have hp2 : p.2 ≠ 0 := h p (by simp)
    simp only [divSumAux, pyDiv]
    rw [if_neg hp2]
    show divSumAux (acc + p.1 / p.2) ps = _
    rw [ih (acc + p.1 / p.2) (fun q hq => h q (by simp [hq]))]
    simp [add_assoc]

theorem divSumAux_err : ∀ (ps : List (ℚ × ℚ)) (acc : ℚ), (∃ p ∈ ps, p.2 = 0) →
    divSumAux acc ps = .error .zeroDivisionError := by
  intro ps
  induction ps with
  | nil =>
    intro acc h
    obtain ⟨p, hp, _⟩ := h
    exact absurd hp (by simp)
  | cons p ps ih =>
    intro acc h
    by_cases hp2 : p.2 = 0
    · simp only [divSumAux, pyDiv]
      rw [if_pos hp2]
    · obtain ⟨q, hq, hq2⟩ := h
      have hq3 : q ∈ ps := by
        rcases List.mem_cons.mp hq with rfl | h2
        · exact absurd hq2 hp2
        · exact h2
      simp only [divSumAux, pyDiv]
      rw [if_neg hp2]
      show divSumAux (acc + p.1 / p.2) ps = _
      exact ih _ ⟨q, hq3, hq2⟩

/-- C3: for every matrix `m` and replacement row `r` whose length differs from
`m`'s width, `set(index, r)` raises the shape `ValueError`, and after the
failed call the row at that index equals `r`: the mutation happens before
validation and is not rolled back. -/
theorem setitem_wrong_length_mutates_and_raises (m : Matrix) (idx : Nat) (r : List Int)
    (hv : m.Valid) (hidx : idx < m.h) (hlen : r.length ≠ m.w) :
    (m.setitem idx r).2 = some (.valueError "All rows must be the same length") ∧
    ((m.setitem idx r).1).coordinates.getD idx [] = r := by
  obtain ⟨hne, hh, hw, hrows⟩ := hv
  have hidx2 : idx < m.coordinates.length := hh ▸ hidx
  unfold Matrix.setitem
  rw [if_pos hidx2]
  constructor
  · show checkMatrix _ = _
    unfold checkMatrix
    have hany : (m.coordinates.set idx r).any (fun row => row.length != m.w) = true := by
      rw [List.any_eq_true]
      exact ⟨r, mem_set_self_of_lt _ _ _ hidx2, bne_iff_ne.mpr hlen⟩
    rw [if_pos hany]
  · exact getD_set_self_of_lt _ _ _ _ hidx2

/-- C3 witness: a concrete failed row replacement on a 2×2 matrix. -/
theorem setitem_wrong_length_witness :
    (Matrix.mk [[1, 2], [3, 4]] 2 2).Valid ∧ 0 < (Matrix.mk [[1, 2], [3, 4]] 2 2).h ∧
    ([5, 6, 7] : List Int).length ≠ (Matrix.mk [[1, 2], [3, 4]] 2 2).w ∧
    (((Matrix.mk [[1, 2], [3, 4]] 2 2).setitem 0 [5, 6, 7]).2 =
      some (.valueError "All rows must be the same length") ∧
      (((Matrix.mk [[1, 2], [3, 4]] 2 2).setitem 0 [5, 6, 7]).1).coordinates.getD 0 [] =
        [5, 6, 7]) :=
  ⟨by decide, by decide, by decide,
    setitem_wrong_length_mutates_and_raises _ 0 _ (by decide) (by decide) (by decide)⟩

/-- C4: adding or subtracting vectors of different lengths does not raise
(the model functions are total); the result's length is the shorter operand
length, and entries up to that length are the pairwise sums, respectively
differences. -/
theorem vector_add_sub_truncate (u v : Vector)
    (hne : u.coordinates.length ≠ v.coordinates.length) :
    (u.add v).coordinates.length = min u.coordinates.length v.coordinates.length ∧
    (u.sub v).coordinates.length = min u.coordinates.length v.coordinates.length ∧
    ∀ i, i < min u.coordinates.length v.coordinates.length →
      (u.add v).coordinates.getD i 0 =
        u.coordinates.getD i 0 + v.coordinates.getD i 0 ∧
      (u.sub v).coordinates.getD i 0 =
        u.coordinates.getD i 0 - v.coordinates.getD i 0 := by
  refine ⟨?_, ?_, ?_⟩
  · show (List.zipWith _ v.coordinates u.coordinates).length = _
    rw [List.length_zipWith]
    omega
  · show (List.zipWith _ u.coordinates v.coordinates).length = _
    rw [List.length_zipWith]
  · intro i hi
    constructor
    · show (List.zipWith _ v.coordinates u.coordinates).getD i 0 = _
      rw [getD_zipWith_of_lt _ 0 0 0 _ _ i (by omega) (by omega)]
      exact add_comm _ _
    · show (List.zipWith _ u.coordinates v.coordinates).getD i 0 = _
      rw [getD_zipWith_of_lt _ 0 0 0 _ _ i (by omega) (by omega)]

/-- C4 witness: concrete vectors of lengths 2 and 1. -/
theorem vector_add_sub_truncate_witness :
    (Vector.mk [(1 : ℚ), 2]).coordinates.length ≠
      (Vector.mk [(3 : ℚ)]).coordinates.length ∧
    (((Vector.mk [(1 : ℚ), 2]).add (Vector.mk [(3 : ℚ)])).coordinates.length =
      min (Vector.mk [(1 : ℚ), 2]).coordinates.length
        (Vector.mk [(3 : ℚ)]).coordinates.length ∧
      ((Vector.mk [(1 : ℚ), 2]).sub (Vector.mk [(3 : ℚ)])).coordinates.length =
        min (Vector.mk [(1 : ℚ), 2]).coordinates.length
          (Vector.mk [(3 : ℚ)]).coordinates.length ∧
      ∀ i, i < min (Vector.mk [(1 : ℚ), 2]).coordinates.length
          (Vector.mk [(3 : ℚ)]).coordinates.length →
        ((Vector.mk [(1 : ℚ), 2]).add (Vector.mk [(3 : ℚ)])).coordinates.getD i 0 =
          (Vector.mk [(1 : ℚ), 2]).coordinates.getD i 0 +
            (Vector.mk [(3 : ℚ)]).coordinates.getD i 0 ∧
        ((Vector.mk [(1 : ℚ), 2]).sub (Vector.mk [(3 : ℚ)])).coordinates.getD i 0 =
          (Vector.mk [(1 : ℚ), 2]).coordinates.getD i 0 -
            (Vector.mk [(3 : ℚ)]).coordinates.getD i 0) :=
  ⟨by decide, vector_add_sub_truncate _ _ (by decide)⟩

/-- C5 counterexample: on the equal-length vectors `u = (1,)` and `v = (0,)`
the division does not return the scalar sum of quotients, it raises
`ZeroDivisionError`. -/
theorem truediv_equal_length_zero_divisor_cex :
    (Vector.mk [(1 : ℚ)]).coordinates.length =
      (Vector.mk [(0 : ℚ)]).coordinates.length ∧
    (Vector.mk [(1 : ℚ)]).truediv (.vec (Vector.mk [(0 : ℚ)])) =
      .error .zeroDivisionError :=
  ⟨rfl, rfl⟩

/-- C5 (amended): for equal-length vectors whose divisor has no zero
coordinate, `u / v` returns the scalar sum of the quotients
`u[i] / v[i]` (numerators from the left operand); on a length mismatch it
raises a `ValueError`-kind error. -/
theorem truediv_vector_branch (u v : Vector) :
    (u.coordinates.length = v.coordinates.length →
      (∀ y ∈ v.coordinates, y ≠ 0) →
      u.truediv (.vec v) =
        .ok (.scalar (List.zipWith (fun a b => a / b)
          u.coordinates v.coordinates).sum)) ∧
    (u.coordinates.length ≠ v.coordinates.length →
      ∃ msg, u.truediv (.vec v) = .error (.valueError msg)) := by
  constructor
  · intro hlen hnz
    rw [truediv_vec_def, if_pos hlen.symm]
    have hps : ∀ p ∈ u.coordinates.zip v.coordinates, p.2 ≠ 0 := by
      intro p hp
      obtain ⟨x, y⟩ := p
      exact hnz y (List.of_mem_zip hp).2
    have h1 : divSumAux 0 (u.coordinates.zip v.coordinates) =
        .ok ((List.zipWith (fun a b => a / b) u.coordinates v.coordinates).sum) := by
      rw [divSumAux_ok _ 0 hps, zero_add, map_zip_eq_zipWith]
    rw [h1]
  · intro hlen
    rw [truediv_vec_def, if_neg (fun hc => hlen (Eq.symm hc))]
    exact ⟨_, rfl⟩

/-- C5 witness: both branches of the amended statement at concrete inputs. -/
theorem truediv_vector_branch_witness :
    ((Vector.mk [(1 : ℚ), 2]).coordinates.length =
        (Vector.mk [(2 : ℚ), 4]).coordinates.length ∧
      (∀ y ∈ (Vector.mk [(2 : ℚ), 4]).coordinates, y ≠ 0) ∧
      (Vector.mk [(1 : ℚ), 2]).truediv (.vec (Vector.mk [(2 : ℚ), 4])) =
        .ok (.scalar (List.zipWith (fun a b => a / b)
          (Vector.mk [(1 : ℚ), 2]).coordinates
          (Vector.mk [(2 : ℚ), 4]).coordinates).sum)) ∧
    ((Vector.mk [(1 : ℚ)]).coordinates.length ≠
        (Vector.mk [(2 : ℚ), 4]).coordinates.length ∧
      ∃ msg, (Vector.mk [(1 : ℚ)]).truediv (.vec (Vector.mk [(2 : ℚ), 4])) =
        .error (.valueError msg)) :=
  ⟨⟨by decide, by decide,
      (truediv_vector_branch (Vector.mk [(1 : ℚ), 2]) (Vector.mk [(2 : ℚ), 4])).1
        (by decide) (by decide)⟩,
    ⟨by decide,
      (truediv_vector_branch (Vector.mk [(1 : ℚ)]) (Vector.mk [(2 : ℚ), 4])).2
        (by decide)⟩⟩

/-- C10: for equal-length vectors where some coordinate of the divisor is
zero, division raises `ZeroDivisionError`: the vector-by-vector branch has no
zero guard. -/
theorem truediv_zero_divisor_raises (u v : Vector)
    (hlen : u.coordinates.length = v.coordinates.length)
    (hzero : (0 : ℚ) ∈ v.coordinates) :
    u.truediv (.vec v) = .error .zeroDivisionError := by
  rw [truediv_vec_def, if_pos hlen.symm]
  have hex : ∃ p ∈ u.coordinates.zip v.coordinates, p.2 = 0 := by
    have hmap : List.map Prod.snd (u.coordinates.zip v.coordinates) = v.coordinates :=
      List.map_snd_zip _ _ (le_of_eq hlen.symm)
    rw [← hmap] at hzero
    obtain ⟨p, hp, hp2⟩ := List.mem_map.mp hzero
    exact ⟨p, hp, hp2⟩
  rw [divSumAux_err _ 0 hex]

/-- C10 witness: `(1, 2) / (1, 0)` raises `ZeroDivisionError`. -/
theorem truediv_zero_divisor_raises_witness :
    (Vector.mk [(1 : ℚ), 2]).coordinates.length =
      (Vector.mk [(1 : ℚ), 0]).coordinates.length ∧
    (0 : ℚ) ∈ (Vector.mk [(1 : ℚ), 0]).coordinates ∧
    (Vector.mk [(1 : ℚ), 2]).truediv (.vec (Vector.mk [(1 : ℚ), 0])) =
      .error .zeroDivisionError :=
  ⟨by decide, by decide,
    truediv_zero_divisor_raises _ _ (by decide) (by decide)⟩

/-! Facts about the multiplication loops. -/

theorem get_col_ok (b : Matrix) (j : Nat) (hb : b.Valid) (hj : j < b.w) :
    b.get_col j = .ok (b.coordinates.map (fun row => row.getD j 0)) := by
  unfold Matrix.get_col
  have hall : b.coordinates.all (fun row => decide (j < row.length)) = true := by
    rw [List.all_eq_true]
    intro row hrow
    simp only [decide_eq_true_eq]
    rw [hb.2.2.2 row hrow]
    exact hj
  rw [if_pos hall]

theorem setEntry_ok (res : List (List Int)) (i j : Nat) (v : Int)
    (hi : i < res.length) (hj : j < (res.getD i []).length) :
    setEntry res i j v = .ok (res.set i ((res.getD i []).set j v)) := by
  simp only [setEntry]
  rw [if_pos hi, if_pos hj]

theorem setEntry_err_row (res : List (List Int)) (i j : Nat) (v : Int)
    (hi : res.length ≤ i) : setEntry res i j v = .error .indexError := by
  simp only [setEntry]
  rw [if_neg (by omega)]

theorem setEntry_err_col (res : List (List Int)) (i j : Nat) (v : Int)
    (hi : i < res.length) (hj : (res.getD i []).length ≤ j) :
    setEntry res i j v = .error .indexError := by
  simp only [setEntry]
  rw [if_pos hi, if_neg (by omega)]

theorem innerLoop_ok (other : Matrix) (row_a : List Int) (i : Nat) (hb : other.Valid)
    {N Hl : Nat} (hi : i < N) :
    ∀ (js : List Nat) (res : List (List Int)), res.length = N →
      (∀ r ∈ res, r.length = Hl) →
      (∀ j ∈ js, j < other.w ∧ j < Hl) →
      ∃ res2, innerLoop other row_a i js res = .ok res2 ∧
        res2.length = N ∧ ∀ r ∈ res2, r.length = Hl := by
  intro js
  induction js with
  | nil =>
    intro res hlen hrows _
    exact ⟨res, rfl, hlen, hrows⟩
  | cons j js ih =>
    intro res hlen hrows hjs
    obtain ⟨hjw, hjH⟩ := hjs j (by simp)
    have hi2 : i < res.length := by omega
    have hrowlen : (res.getD i []).length = Hl := hrows _ (getD_mem_of_lt _ _ _ hi2)
    have hset := setEntry_ok res i j
      (dotZip row_a (other.coordinates.map (fun row => row.getD j 0))) hi2 (by omega)
    simp only [innerLoop, get_col_ok other j hb hjw, hset]
    apply ih
    · rw [List.length_set]
      exact hlen
    · intro r hr
      rcases List.mem_or_eq_of_mem_set hr with h2 | h2
      · exact hrows r h2
      · rw [h2, List.length_set]
        exact hrowlen
    · intro j2 hj2
      exact hjs j2 (by simp [hj2])

theorem innerLoop_err_col (other : Matrix) (row_a : List Int) (i : Nat) (hb : other.Valid)
    {N Hl : Nat} (hi : i < N) :
    ∀ (js : List Nat) (res : List (List Int)), res.length = N →
      (∀ r ∈ res, r.length = Hl) →
      (∀ j ∈ js, j < other.w) → (∃ j ∈ js, Hl ≤ j) →
      innerLoop other row_a i js res = .error .indexError := by
  intro js
  induction js with
  | nil =>
    intro res _ _ _ hex
    obtain ⟨j, hj, _⟩ := hex
    exact absurd hj (by simp)
  | cons j js ih =>
    intro res hlen hrows hjs hex
    have hjw : j < other.w := hjs j (by simp)
    have hi2 : i < res.length := by omega
    have hrowlen : (res.getD i []).length = Hl := hrows _ (getD_mem_of_lt _ _ _ hi2)
    by_cases hjH : j < Hl
    · have hset := setEntry_ok res i j
        (dotZip row_a (other.coordinates.map (fun row => row.getD j 0))) hi2 (by omega)
      simp only [innerLoop, get_col_ok other j hb hjw, hset]
      apply ih
      · rw [List.length_set]
        exact hlen
      · intro r hr
        rcases List.mem_or_eq_of_mem_set hr with h2 | h2
        · exact hrows r h2
        · rw [h2, List.length_set]
          exact hrowlen
      · intro j2 hj2
        exact hjs j2 (by simp [hj2])
      · obtain ⟨j0, hj0, hj0H⟩ := hex
        rcases List.mem_cons.mp hj0 with rfl | h2
        · omega
        · exact ⟨j0, h2, hj0H⟩
    · have hset := setEntry_err_col res i j
        (dotZip row_a (other.coordinates.map (fun row => row.getD j 0))) hi2 (by omega)
      simp only [innerLoop, get_col_ok other j hb hjw, hset]

theorem innerLoop_err_row (other : Matrix) (row_a : List Int) (i : Nat) (hb : other.Valid)
    (res : List (List Int)) (hi : res.length ≤ i) (hw : 0 < other.w) :
    innerLoop other row_a i (List.range other.w) res = .error .indexError := by
  obtain ⟨k, hk⟩ : ∃ k, other.w = k + 1 := ⟨other.w - 1, by omega⟩
  rw [hk, List.range_succ_eq_map]
  have hset := setEntry_err_row res i 0
    (dotZip row_a (other.coordinates.map (fun row => row.getD 0 0))) hi
  simp only [innerLoop, get_col_ok other 0 hb hw, hset]

theorem outerLoop_err (other : Matrix) (hb : other.Valid) {N Hl : Nat}
    (hwHl : other.w ≤ Hl) (hw0 : 0 < other.w) :
    ∀ (items : List (Nat × List Int)) (res : List (List Int)), res.length = N →
      (∀ r ∈ res, r.length = Hl) → (∃ p ∈ items, N ≤ p.1) →
      outerLoop other items res = .error .indexError := by
  intro items
  induction items with
  | nil =>
    intro res _ _ hex
    obtain ⟨p, hp, _⟩ := hex
    exact absurd hp (by simp)
  | cons p ps ih =>
    intro res hlen hrows hex
    by_cases hpN : p.1 < N
    · obtain ⟨res2, hok, hlen2, hrows2⟩ :=
        innerLoop_ok other p.2 p.1 hb hpN (List.range other.w) res hlen hrows
          (fun j hj => ⟨List.mem_range.mp hj, by have := List.mem_range.mp hj; omega⟩)
      simp only [outerLoop, hok]
      apply ih res2 hlen2 hrows2
      obtain ⟨q, hq, hqN⟩ := hex
      rcases List.mem_cons.mp hq with rfl | h2
      · omega
      · exact ⟨q, h2, hqN⟩
    · have herr := innerLoop_err_row other p.2 p.1 hb res (by omega) hw0
      simp only [outerLoop, herr]

theorem outerLoop_w0 (other : Matrix) (hw : other.w = 0) :
    ∀ (items : List (Nat × List Int)) (res : List (List Int)),
      outerLoop other items res = .ok res := by
  intro items
  induction items with
  | nil => intro res; rfl
  | cons p ps ih =>
    intro res
    simp only [outerLoop, hw, List.range_zero, innerLoop]
    exact ih res

/-- C2: for valid matrices `a` of shape `(h, k)` and `b` of shape `(k, n)`
with `h ≠ n`, multiplying `a` by `b` raises `IndexError` instead of returning
a product matrix: the result buffer is allocated with `n` rows of `h`
columns, transposed relative to the indices written into it. -/
theorem mul_shape_mismatch_raises (a b : Matrix) (ha : a.Valid) (hb : b.Valid)
    (hcompat : a.w = b.h) (hne : a.h ≠ b.w) :
    a.mulMatrix b = .error .indexError := by
  have hane := ha.1
  have hah := ha.2.1
  unfold Matrix.mulMatrix
  rw [if_pos hcompat]
  have hbuflen : (List.replicate b.w (List.replicate a.h (0 : Int))).length = b.w :=
    List.length_replicate _ _
  have hbufrows : ∀ r ∈ List.replicate b.w (List.replicate a.h (0 : Int)),
      r.length = a.h := by
    intro r hr
    rw [List.eq_of_mem_replicate hr]
    exact List.length_replicate _ _
  by_cases hw0 : b.w = 0
  · rw [outerLoop_w0 b hw0, hw0, List.replicate_zero]
    rfl
  · rcases Nat.lt_or_ge a.h b.w with hlt | hge
    · obtain ⟨r, rest, hcoords⟩ := List.exists_cons_of_ne_nil hane
      rw [hcoords, List.enum_cons]
      have herr := innerLoop_err_col b r 0 hb (by omega) (List.range b.w)
        (List.replicate b.w (List.replicate a.h (0 : Int))) hbuflen hbufrows
        (fun j hj => List.mem_range.mp hj)
        ⟨a.h, List.mem_range.mpr hlt, Nat.le_refl _⟩
      simp only [outerLoop, herr]
    · have hlt2 : b.w < a.coordinates.length := by omega
      have hex : ∃ p ∈ a.coordinates.enum, b.w ≤ p.1 := by
        refine ⟨(b.w, a.coordinates[b.w]), ?_, Nat.le_refl _⟩
        exact List.mk_mem_enum_iff_getElem?.mpr (List.getElem?_eq_getElem hlt2)
      rw [outerLoop_err b hb (by omega) (by omega) a.coordinates.enum _
        hbuflen hbufrows hex]

/-- C2 witness: the 2×1 matrix `[[1],[2]]` times the 1×1 matrix `[[3]]`
raises `IndexError`. -/
theorem mul_shape_mismatch_raises_witness :
    (Matrix.mk [[1], [2]] 2 1).Valid ∧ (Matrix.mk [[3]] 1 1).Valid ∧
    (Matrix.mk [[1], [2]] 2 1).w = (Matrix.mk [[3]] 1 1).h ∧
    (Matrix.mk [[1], [2]] 2 1).h ≠ (Matrix.mk [[3]] 1 1).w ∧
    (Matrix.mk [[1], [2]] 2 1).mulMatrix (Matrix.mk [[3]] 1 1) =
      .error .indexError :=
  ⟨by decide, by decide, by decide, by decide,
    mul_shape_mismatch_raises _ _ (by decide) (by decide) (by decide) (by decide)⟩

/-- C1: the spec and the method's own documentation promise that compatible
matrices multiply to a product of shape `(self.height, other.width)`, but the
code allocates the result buffer transposed; already on the compatible pair
`[[1]]` (1×1) times `[[1, 2]]` (1×2) the write `result[0][1]` is out of
bounds and the call raises `IndexError` instead of returning a matrix. -/
theorem mul_compatible_shapes_raises_cex :
    (Matrix.mk [[1]] 1 1).Valid ∧ (Matrix.mk [[1, 2]] 1 2).Valid ∧
    (Matrix.mk [[1]] 1 1).w = (Matrix.mk [[1, 2]] 1 2).h ∧
    (Matrix.mk [[1]] 1 1).mulMatrix (Matrix.mk [[1, 2]] 1 2) = .error .indexError :=
  ⟨by decide, by decide, rfl, rfl⟩

/-- C6: the doctest product: `Matrix([[1,2,3],[4,5,6]])` times
`Matrix([[10,11],[20,21],[30,31]])` equals `Matrix([[140,146],[320,335]])`
(here the buffer transposition is invisible because both dimensions are
2). -/
theorem mul_doctest_concrete :
    ( do
      let m1 ← mkMatrix [[1, 2, 3], [4, 5, 6]]
      let m2 ← mkMatrix [[10, 11], [20, 21], [30, 31]]
      m1.mulMatrix m2 ) = mkMatrix [[140, 146], [320, 335]] := by rfl

/-! Facts about transposition. -/

theorem pyZipStar_rect (w : Nat) (rows : List (List Int)) (hne : rows ≠ [])
    (hall : ∀ r ∈ rows, r.length = w) :
    pyZipStar rows =
      (List.range w).map (fun j => rows.map (fun row => row.getD j 0)) := by
  obtain ⟨r, rs, rfl⟩ := List.exists_cons_of_ne_nil hne
  simp only [pyZipStar]
  rw [hall r (by simp), foldl_min_const w rs (fun row hrow => hall row (by simp [hrow]))]

theorem transpose_ok (m : Matrix) (hv : m.Valid) (hw : 0 < m.w) :
    m.transpose =
      .ok ⟨(List.range m.w).map (fun j => m.coordinates.map (fun row => row.getD j 0)),
        m.w, m.h⟩ := by
  obtain ⟨hne, hh, hwid, hrows⟩ := hv
  unfold Matrix.transpose
  rw [pyZipStar_rect m.w m.coordinates hne hrows]
  have hTlen :
      ((List.range m.w).map (fun j => m.coordinates.map (fun row => row.getD j 0))).length
        = m.w := by
    rw [List.length_map, List.length_range]
  have hTne :
      (List.range m.w).map (fun j => m.coordinates.map (fun row => row.getD j 0)) ≠ [] := by
    intro hTnil
    have h2 := congrArg List.length hTnil
    rw [hTlen] at h2
    simp at h2
    omega
  have hTrows :
      ∀ r ∈ (List.range m.w).map (fun j => m.coordinates.map (fun row => row.getD j 0)),
        r.length = m.h := by
    intro r hr
    obtain ⟨j, _, rfl⟩ := List.mem_map.mp hr
    rw [List.length_map]
    omega
  rw [mkMatrix_ok _ m.h hTne hTrows, hTlen]

/-- C7: for every valid matrix with at least one row and one column,
transposing twice gives back the matrix, and the transpose has shape
`(width, height)`. -/
theorem transpose_transpose_id (m : Matrix) (hv : m.Valid) (hw : 0 < m.w) :
    ∃ t, m.transpose = .ok t ∧ t.shape = (m.w, m.h) ∧ t.transpose = .ok m := by
  obtain ⟨hne, hh, hwid, hrows⟩ := hv
  have hvv : m.Valid := ⟨hne, hh, hwid, hrows⟩
  have hTlen :
      ((List.range m.w).map (fun j => m.coordinates.map (fun row => row.getD j 0))).length
        = m.w := by
    rw [List.length_map, List.length_range]
  have hTne :
      (List.range m.w).map (fun j => m.coordinates.map (fun row => row.getD j 0)) ≠ [] := by
    intro hTnil
    have h2 := congrArg List.length hTnil
    rw [hTlen] at h2
    simp at h2
    omega
  have hTrows :
      ∀ r ∈ (List.range m.w).map (fun j => m.coordinates.map (fun row => row.getD j 0)),
        r.length = m.h := by
    intro r hr
    obtain ⟨j, _, rfl⟩ := List.mem_map.mp hr
    rw [List.length_map]
    omega
  refine ⟨_, transpose_ok m hvv hw, ?_, ?_⟩
  · rw [shape_of_rect _ m.w m.h hTne hTrows, hTlen]
  · unfold Matrix.transpose
    have hstep : pyZipStar
        ((List.range m.w).map (fun j => m.coordinates.map (fun row => row.getD j 0))) =
        m.coordinates := by
      rw [pyZipStar_rect m.h _ hTne hTrows]
      have hinner : ∀ i ∈ List.range m.h,
          ((List.range m.w).map (fun j => m.coordinates.map (fun row => row.getD j 0))).map
              (fun col => col.getD i 0) =
            m.coordinates.getD i [] := by
        intro i hi
        have hi2 : i < m.coordinates.length := by
          have := List.mem_range.mp hi
          omega
        rw [List.map_map]
        have hfun : ((fun col => col.getD i (0 : Int)) ∘
            (fun j => m.coordinates.map (fun row => row.getD j 0))) =
            fun j => (m.coordinates.getD i []).getD j 0 := by
          funext j
          exact getD_map_of_lt (fun row => row.getD j 0) 0 [] m.coordinates i hi2
        rw [hfun]
        have hlen2 : (m.coordinates.getD i []).length = m.w :=
          hrows _ (getD_mem_of_lt _ _ _ hi2)
        rw [← hlen2]
        exact range_map_getD (0 : Int) (m.coordinates.getD i [])
      rw [List.map_congr_left hinner]
      have hlen3 : m.h = m.coordinates.length := hh
      rw [hlen3]
      exact range_map_getD [] m.coordinates
    rw [hstep, mkMatrix_ok m.coordinates m.w hne hrows]
    obtain ⟨mc, mh, mw⟩ := m
    simp only at hh hwid ⊢
    rw [← hh]

/-- C7 witness: the 1×2 matrix `[[1, 2]]`. -/
theorem transpose_transpose_id_witness :
    (Matrix.mk [[1, 2]] 1 2).Valid ∧ 0 < (Matrix.mk [[1, 2]] 1 2).w ∧
    ∃ t, (Matrix.mk [[1, 2]] 1 2).transpose = .ok t ∧
      t.shape = ((Matrix.mk [[1, 2]] 1 2).w, (Matrix.mk [[1, 2]] 1 2).h) ∧
      t.transpose = .ok (Matrix.mk [[1, 2]] 1 2) :=
  ⟨by decide, by decide,
    transpose_transpose_id (Matrix.mk [[1, 2]] 1 2) (by decide) (by decide)⟩

/-! Facts about addition, subtraction and negation. -/

theorem zipWith_rowAdd_rows (w : Nat) : ∀ (xs ys : List (List Int)),
    (∀ r ∈ xs, r.length = w) → (∀ r ∈ ys, r.length = w) →
    ∀ r ∈ List.zipWith (fun a b => List.zipWith (fun p q => p + q) a b) xs ys,
      r.length = w := by
  intro xs
  induction xs with
  | nil =>
    intro ys _ _ r hr
    simp at hr
  | cons x xs ih =>
    intro ys hxs hys r hr
    cases ys with
    | nil => simp at hr
    | cons y ys =>
      rw [List.zipWith_cons_cons] at hr
      rcases List.mem_cons.mp hr with rfl | h2
      · rw [List.length_zipWith, hxs x (by simp), hys y (by simp), min_self]
      · exact ih ys (fun r2 hr2 => hxs r2 (by simp [hr2]))
          (fun r2 hr2 => hys r2 (by simp [hr2])) r h2

theorem add_ok (x y : Matrix) (hx : x.Valid) (hy : y.Valid) (hsh : x.shape = y.shape) :
    x.add y = .ok ⟨List.zipWith (fun a b => List.zipWith (fun p q => p + q) a b)
        y.coordinates x.coordinates,
      (List.zipWith (fun a b => List.zipWith (fun p q => p + q) a b)
        y.coordinates x.coordinates).length, x.w⟩ := by
  obtain ⟨hxne, hxh, hxw, hxrows⟩ := hx
  obtain ⟨hyne, hyh, hyw, hyrows⟩ := hy
  have hww : y.w = x.w := by
    have h2 : x.shape.2 = y.shape.2 := congrArg Prod.snd hsh
    simp only [Matrix.shape] at h2
    omega
  have hyrows2 : ∀ r ∈ y.coordinates, r.length = x.w :=
    fun r hr => (hyrows r hr).trans hww
  unfold Matrix.add
  rw [if_pos hsh.symm]
  apply mkMatrix_ok
  · intro hnil
    have h2 := congrArg List.length hnil
    rw [List.length_zipWith] at h2
    simp only [List.length_nil] at h2
    have hxpos : 0 < x.coordinates.length := List.length_pos.mpr hxne
    have hypos : 0 < y.coordinates.length := List.length_pos.mpr hyne
    omega
  · exact zipWith_rowAdd_rows x.w y.coordinates x.coordinates hyrows2 hxrows

theorem neg_ok (y : Matrix) (hy : y.Valid) :
    y.neg = .ok ⟨y.coordinates.map (fun r => r.map (fun t => -t)),
      (y.coordinates.map (fun r => r.map (fun t => -t))).length, y.w⟩ := by
  obtain ⟨hyne, hyh, hyw, hyrows⟩ := hy
  unfold Matrix.neg
  apply mkMatrix_ok
  · intro hnil
    exact hyne (List.map_eq_nil_iff.mp hnil)
  · intro r hr
    obtain ⟨r0, hr0, rfl⟩ := List.mem_map.mp hr
    rw [List.length_map]
    exact hyrows r0 hr0

theorem sub_ok (x y : Matrix) (hx : x.Valid) (hy : y.Valid) (hsh : x.shape = y.shape) :
    x.sub y = .ok ⟨List.zipWith (fun a b => List.zipWith (fun p q => p + q) a b)
        (y.coordinates.map (fun r => r.map (fun t => -t))) x.coordinates,
      (List.zipWith (fun a b => List.zipWith (fun p q => p + q) a b)
        (y.coordinates.map (fun r => r.map (fun t => -t))) x.coordinates).length,
      x.w⟩ := by
  have hyne := hy.1
  have hyw := hy.2.2.1
  have hyrows := hy.2.2.2
  have hNBne : y.coordinates.map (fun r => r.map (fun t => -t)) ≠ [] := by
    intro hnil
    exact hyne (List.map_eq_nil_iff.mp hnil)
  have hNBrows : ∀ r ∈ y.coordinates.map (fun r => r.map (fun t => -t)),
      r.length = y.w := by
    intro r hr
    obtain ⟨r0, hr0, rfl⟩ := List.mem_map.mp hr
    rw [List.length_map]
    exact hyrows r0 hr0
  have hnv : (Matrix.mk (y.coordinates.map (fun r => r.map (fun t => -t)))
      (y.coordinates.map (fun r => r.map (fun t => -t))).length y.w).Valid :=
    valid_of_rect _ y.w hNBne hNBrows
  have hxnsh : x.shape = (Matrix.mk (y.coordinates.map (fun r => r.map (fun t => -t)))
      (y.coordinates.map (fun r => r.map (fun t => -t))).length y.w).shape := by
    rw [shape_of_rect _ _ y.w hNBne hNBrows, List.length_map, hsh]
    simp only [Matrix.shape]
    rw [← hyw]
  unfold Matrix.sub
  rw [if_pos hsh.symm]
  simp only [neg_ok y hy]
  exact add_ok x _ hx hnv hxnsh

theorem rowAdd_neg_cancel : ∀ (br ar : List Int), br.length = ar.length →
    List.zipWith (fun x y => x + y) (br.map (fun t => -t))
      (List.zipWith (fun x y => x + y) br ar) = ar := by
  intro br
  induction br with
  | nil =>
    intro ar h
    cases ar with
    | nil => rfl
    | cons a ar => simp at h
  | cons x br ih =>
    intro ar h
    cases ar with
    | nil => simp at h
    | cons a ar =>
      simp only [List.map_cons, List.zipWith_cons_cons]
      rw [neg_add_cancel_left, ih ar (by simpa using h)]

theorem matAdd_neg_cancel (w : Nat) : ∀ (bs as : List (List Int)),
    bs.length = as.length →
    (∀ r ∈ bs, r.length = w) → (∀ r ∈ as, r.length = w) →
    List.zipWith (fun a b => List.zipWith (fun p q => p + q) a b)
      (bs.map (fun r => r.map (fun t => -t)))
      (List.zipWith (fun a b => List.zipWith (fun p q => p + q) a b) bs as) = as := by
  intro bs
  induction bs with
  | nil =>
    intro as h _ _
    cases as with
    | nil => rfl
    | cons a as => simp at h
  | cons b bs ih =>
    intro as h hbs has
    cases as with
    | nil => simp at h
    | cons a as =>
      simp only [List.map_cons, List.zipWith_cons_cons]
      rw [rowAdd_neg_cancel b a (by rw [hbs b (by simp), has a (by simp)]),
        ih as (by simpa using h) (fun r hr => hbs r (by simp [hr]))
          (fun r hr => has r (by simp [hr]))]

/-- C8: for valid matrices of equal shape, `a.add(b).sub(b)` succeeds and
returns `a` (integer entries, so the equality is exact). -/
theorem add_sub_cancel_matrices (a b : Matrix) (ha : a.Valid) (hb : b.Valid)
    (hsh : a.shape = b.shape) :
    ∃ c, a.add b = .ok c ∧ c.sub b = .ok a := by
  have hadd := add_ok a b ha hb hsh
  refine ⟨_, hadd, ?_⟩
  have hane := ha.1
  have hah := ha.2.1
  have haw := ha.2.2.1
  have harows := ha.2.2.2
  have hbw := hb.2.2.1
  have hww : b.w = a.w := by
    have h2 : a.shape.2 = b.shape.2 := congrArg Prod.snd hsh
    simp only [Matrix.shape] at h2
    omega
  have hlen : b.coordinates.length = a.coordinates.length := by
    have h2 : a.shape.1 = b.shape.1 := congrArg Prod.fst hsh
    simp only [Matrix.shape] at h2
    omega
  have hbrows2 : ∀ r ∈ b.coordinates, r.length = a.w :=
    fun r hr => (hb.2.2.2 r hr).trans hww
  have hCrows : ∀ r ∈ List.zipWith (fun p q => List.zipWith (fun s t => s + t) p q)
      b.coordinates a.coordinates, r.length = a.w :=
    zipWith_rowAdd_rows a.w b.coordinates a.coordinates hbrows2 harows
  have hCne : List.zipWith (fun p q => List.zipWith (fun s t => s + t) p q)
      b.coordinates a.coordinates ≠ [] := by
    intro hnil
    have h2 := congrArg List.length hnil
    rw [List.length_zipWith] at h2
    simp only [List.length_nil] at h2
    have hapos : 0 < a.coordinates.length := List.length_pos.mpr hane
    omega
  have hCv := valid_of_rect _ a.w hCne hCrows
  have hcsh : (Matrix.mk (List.zipWith (fun p q => List.zipWith (fun s t => s + t) p q)
      b.coordinates a.coordinates)
      (List.zipWith (fun p q => List.zipWith (fun s t => s + t) p q)
        b.coordinates a.coordinates).length a.w).shape = b.shape := by
    rw [shape_of_rect _ _ _ hCne hCrows]
    have hClen : (List.zipWith (fun p q => List.zipWith (fun s t => s + t) p q)
        b.coordinates a.coordinates).length = b.coordinates.length := by
      rw [List.length_zipWith]
      omega
    rw [hClen]
    simp only [Matrix.shape]
    rw [← hbw, hww]
  have hsub := sub_ok _ b hCv hb hcsh
  rw [hsub]
  have hD := matAdd_neg_cancel a.w b.coordinates a.coordinates hlen hbrows2 harows
  simp only at hD ⊢
  rw [hD]
  obtain ⟨ac, ahf, awf⟩ := a
  simp only at hah ⊢
  rw [← hah]

/-- C8 witness: concrete 2×2 matrices. -/
theorem add_sub_cancel_matrices_witness :
    (Matrix.mk [[1, 2], [3, 4]] 2 2).Valid ∧ (Matrix.mk [[5, 6], [7, 8]] 2 2).Valid ∧
    (Matrix.mk [[1, 2], [3, 4]] 2 2).shape = (Matrix.mk [[5, 6], [7, 8]] 2 2).shape ∧
    ∃ c, (Matrix.mk [[1, 2], [3, 4]] 2 2).add (Matrix.mk [[5, 6], [7, 8]] 2 2) = .ok c ∧
      c.sub (Matrix.mk [[5, 6], [7, 8]] 2 2) = .ok (Matrix.mk [[1, 2], [3, 4]] 2 2) :=
  ⟨by decide, by decide, by decide,
    add_sub_cancel_matrices _ _ (by decide) (by decide) (by decide)⟩

/-- C9: for valid matrices of different shapes, both `a + b` and `a - b`
raise the shape `ValueError` whose message contains the rendered shapes of
both operands; for equal shapes neither raises. -/
theorem add_sub_shape_contract (a b : Matrix) (ha : a.Valid) (hb : b.Valid) :
    (a.shape ≠ b.shape →
      a.add b = .error (.valueError (sameShapeMsg a b)) ∧
      a.sub b = .error (.valueError (sameShapeMsg a b)) ∧
      strContains (sameShapeMsg a b) (shapeStr a.shape) ∧
      strContains (sameShapeMsg a b) (shapeStr b.shape)) ∧
    (a.shape = b.shape →
      (∃ c, a.add b = .ok c) ∧ (∃ d, a.sub b = .ok d)) := by
  constructor
  · intro hne2
    have hbs : ¬ (b.shape = a.shape) := fun hc => hne2 hc.symm
    refine ⟨?_, ?_, ?_, ?_⟩
    · unfold Matrix.add
      rw [if_neg hbs]
    · unfold Matrix.sub
      rw [if_neg hbs]
    · refine ⟨("Matrices must be the same shape. Shape of " ++ a.reprStr ++ " is ").data,
        (" and shape of " ++ b.reprStr ++ " is " ++ shapeStr b.shape).data, ?_⟩
      simp only [sameShapeMsg, String.data_append, List.append_assoc]
    · refine ⟨("Matrices must be the same shape. Shape of " ++ a.reprStr ++ " is " ++
          shapeStr a.shape ++ " and shape of " ++ b.reprStr ++ " is ").data, [], ?_⟩
      simp only [sameShapeMsg, String.data_append, List.append_assoc, List.append_nil]
  · intro heq
    exact ⟨⟨_, add_ok a b ha hb heq⟩, ⟨_, sub_ok a b ha hb heq⟩⟩

/-- C9 witness: both branches, on a 2×3 and a 3×2 matrix (mismatch) and on
two 2×3 matrices (match). -/
theorem add_sub_shape_contract_witness :
    ((Matrix.mk [[1, 2, 3], [4, 5, 6]] 2 3).Valid ∧
      (Matrix.mk [[10, 11], [20, 21], [30, 31]] 3 2).Valid ∧
      ((Matrix.mk [[1, 2, 3], [4, 5, 6]] 2 3).shape ≠
          (Matrix.mk [[10, 11], [20, 21], [30, 31]] 3 2).shape →
        (Matrix.mk [[1, 2, 3], [4, 5, 6]] 2 3).add
            (Matrix.mk [[10, 11], [20, 21], [30, 31]] 3 2) =
          .error (.valueError (sameShapeMsg (Matrix.mk [[1, 2, 3], [4, 5, 6]] 2 3)
            (Matrix.mk [[10, 11], [20, 21], [30, 31]] 3 2))) ∧
        (Matrix.mk [[1, 2, 3], [4, 5, 6]] 2 3).sub
            (Matrix.mk [[10, 11], [20, 21], [30, 31]] 3 2) =
          .error (.valueError (sameShapeMsg (Matrix.mk [[1, 2, 3], [4, 5, 6]] 2 3)
            (Matrix.mk [[10, 11], [20, 21], [30, 31]] 3 2))) ∧
        strContains (sameShapeMsg (Matrix.mk [[1, 2, 3], [4, 5, 6]] 2 3)
            (Matrix.mk [[10, 11], [20, 21], [30, 31]] 3 2))
          (shapeStr (Matrix.mk [[1, 2, 3], [4, 5, 6]] 2 3).shape) ∧
        strContains (sameShapeMsg (Matrix.mk [[1, 2, 3], [4, 5, 6]] 2 3)
            (Matrix.mk [[10, 11], [20, 21], [30, 31]] 3 2))
          (shapeStr (Matrix.mk [[10, 11], [20, 21], [30, 31]] 3 2).shape)) ∧
      ((Matrix.mk [[1, 2, 3], [4, 5, 6]] 2 3).shape =
          (Matrix.mk [[10, 11], [20, 21], [30, 31]] 3 2).shape →
        (∃ c, (Matrix.mk [[1, 2, 3], [4, 5, 6]] 2 3).add
          (Matrix.mk [[10, 11], [20, 21], [30, 31]] 3 2) = .ok c) ∧
        ∃ d, (Matrix.mk [[1, 2, 3], [4, 5, 6]] 2 3).sub
          (Matrix.mk [[10, 11], [20, 21], [30, 31]] 3 2) = .ok d)) ∧
    ((Matrix.mk [[0, 0, 0], [0, 0, 0]] 2 3).shape =
        (Matrix.mk [[1, 2, 3], [4, 5, 6]] 2 3).shape →
      (∃ c, (Matrix.mk [[0, 0, 0], [0, 0, 0]] 2 3).add
        (Matrix.mk [[1, 2, 3], [4, 5, 6]] 2 3) = .ok c) ∧
      ∃ d, (Matrix.mk [[0, 0, 0], [0, 0, 0]] 2 3).sub
        (Matrix.mk [[1, 2, 3], [4, 5, 6]] 2 3) = .ok d) :=
  ⟨⟨by decide, by decide,
      add_sub_shape_contract _ _ (by decide) (by decide)⟩,
    (add_sub_shape_contract _ _ (by decide) (by decide)).2⟩

end MiniNumpy
